import Mathlib

/-!
Verification of the university-list scraper (`main.py` / `streamlit_app.py`).

The Python source is shallowly embedded: network effects (HTTP fetch, the
OpenAI chat endpoint, the Google search scrape) are parameters of the embedded
functions — a fetched page is an `Option` of parsed tables, a chat response is
an `Except Unit String`, and the search primitive is a function from the full
query string to the `Option String` it would return.  Everything downstream of
those boundaries is translated directly from the source.
-/

set_option autoImplicit false

/-! ### String primitives modelling the Python operations used by the source -/

/-- Model of Python list-prefix testing used to implement substring search:
`hasPrefixL hay pat` is true when `pat` is an initial segment of `hay`. -/
def hasPrefixL : List Char → List Char → Bool
  | _, [] => true
  | [], _ :: _ => false
  | a :: as, b :: bs => a == b && hasPrefixL as bs

/-- Model of Python's `pat in hay` substring containment on character lists. -/
def containsSubL : List Char → List Char → Bool
  | [], pat => pat.isEmpty
  | c :: t, pat => hasPrefixL (c :: t) pat || containsSubL t pat

/-- Model of Python's `pat in s` substring containment on strings. -/
def containsSub (s pat : String) : Bool :=
  containsSubL s.toList pat.toList

/-- Model of Python's `str.lower()` (ASCII case folding, as used by the source
on ASCII header names, URLs and chat answers). -/
def toLowerS (s : String) : String :=
  String.mk (s.toList.map Char.toLower)

/-- Model of Python's `str.strip()`: drop whitespace from both ends. -/
def trimS (s : String) : String :=
  String.mk (((s.toList.dropWhile Char.isWhitespace).reverse.dropWhile Char.isWhitespace).reverse)

/-- Model of Python's `str.startswith`. -/
def startsWithS (s pre : String) : Bool :=
  hasPrefixL s.toList pre.toList

/-- Model of Python's `str.endswith`. -/
def endsWithS (s suf : String) : Bool :=
  hasPrefixL s.toList.reverse suf.toList.reverse

/-- Suffix of a character list after the last occurrence of `//`, or `none`
when `//` does not occur: models Python's `s.split('//')[-1]` (the source
uses it in `get_tto_page_url` / `get_incubation_record` to strip the scheme). -/
def afterLastDoubleSlash? : List Char → Option (List Char)
  | [] => none
  | '/' :: '/' :: rest => some ((afterLastDoubleSlash? rest).getD rest)
  | _ :: t => afterLastDoubleSlash? t

/-- Longest prefix of a character list before the first `/`: models Python's
`s.split('/')[0]`. -/
def beforeSlash : List Char → List Char
  | [] => []
  | '/' :: _ => []
  | c :: t => c :: beforeSlash t

/-- `university_website.split('//')[-1].split('/')[0]` from the source: the
bare domain of a website string. -/
def domainOf (w : String) : String :=
  String.mk (beforeSlash ((afterLastDoubleSlash? w.toList).getD w.toList))

/-- Python truthiness of an optional string: `None` and `""` are falsy. -/
def optTruthy (o : Option String) : Bool :=
  (o.getD "") != ""

/-- Python `str(...)` rendering of an optional string as it appears inside an
f-string: `None` renders as the literal text `"None"`. -/
def pyStr : Option String → String
  | none => "None"
  | some s => s

/-! ### Python dict model

The extractor builds each row as a Python `dict` keyed by header text.  A dict
is modelled as an association list in insertion order: assignment to an
existing key updates it in place, assignment to a fresh key appends, `pop`
removes the entry. -/

/-- Association lists standing for Python dicts with string keys and values. -/
abbrev Dict := List (String × String)

/-- Model of Python `d[k]` / `d.get(k)`: first entry with the given key. -/
def dget? : Dict → String → Option String
  | [], _ => none
  | (k', v') :: rest, k => if k' = k then some v' else dget? rest k

/-- Model of Python `d[k] = v`: update the existing entry in place, else
append a new entry at the end. -/
def dinsert : Dict → String → String → Dict
  | [], k, v => [(k, v)]
  | (k', v') :: rest, k, v =>
    if k' = k then (k, v) :: rest else (k', v') :: dinsert rest k v

/-- Model of Python `d.pop(k)` (the removal part): drop the first entry with
the given key. -/
def dpop : Dict → String → Dict
  | [], _ => []
  | (k', v') :: rest, k => if k' = k then rest else (k', v') :: dpop rest k

/-! ### HTML model and the table extractor (`extract_university_tables_from_url`) -/

/-- An HTML table cell is either a header cell (`th`) or a data cell (`td`). -/
inductive CellKind where
  | th
  | td
deriving DecidableEq, Repr

/-- A parsed table cell: its kind, its stripped visible text
(`get_text(strip=True)`), and the `href` of an embedded `<a>` tag if any
(`cell.find('a', href=True)`). -/
structure Cell where
  kind : CellKind
  text : String
  link : Option String
deriving DecidableEq, Repr

/-- A table row (`tr`) is its list of cells in document order. -/
abbrev HtmlRow := List Cell

/-- A parsed `wikitable`: rows outside the `tbody` (e.g. a `thead` header
row), followed by the optional `tbody` rows — `table.find('tbody')` returning
`None` is modelled by `tbody = none`. -/
structure HtmlTable where
  preRows : List HtmlRow
  tbody : Option (List HtmlRow)
deriving Repr

/-- All `th` cell texts of a list of rows, in document order. -/
def thTexts (rows : List HtmlRow) : List String :=
  (rows.map (fun r => (r.filter (fun c => c.kind == CellKind.th)).map Cell.text)).flatten

/-- `table.find_all('th')` texts: the source collects every `th` anywhere in
the table — both outside and inside the `tbody` — in document order. -/
def tableHeaders (t : HtmlTable) : List String :=
  thTexts (t.preRows ++ t.tbody.getD [])

/-- `[h.lower() for h in table_headers].index('website')` wrapped in
`try/except ValueError`: index of the first header whose lowercasing is
exactly `"website"`, if any. -/
def websiteIdx : List String → Option Nat
  | [] => none
  | h :: t => if toLowerS h == "website" then some 0 else (websiteIdx t).map (· + 1)

/-- The fixed priority list `possible_name_columns` from the source. -/
def possible_name_columns : List String :=
  ["name", "names", "name in english", "names in english",
   "institution", "institutions", "university", "universities"]

/-- The nested name-resolution scan: for each alias in priority order, scan
the original header list for a case-insensitive substring match; the first
match wins. -/
def findNameHeader (headers : List String) : Option String :=
  possible_name_columns.findSome? (fun key => headers.find? (fun h => containsSub (toLowerS h) key))

/-- Value stored for the cell in column `i`: for the website column the
embedded hyperlink target is preferred over visible text, every other column
takes visible text verbatim. -/
def cellValue (wIdx : Option Nat) (i : Nat) (c : Cell) : String :=
  if wIdx = some i then c.link.getD c.text else c.text

/-- The `row_data_dict` built by the inner loop over `enumerate(cells)`. -/
def buildRowDict (headers : List String) (wIdx : Option Nat) (tds : List Cell) : Dict :=
  ((headers.zip tds).enum).foldl (fun d x => dinsert d x.2.1 (cellValue wIdx x.1 x.2.2)) []

/-- Processing of one `tr` inside the `tbody`: take the row's `td` cells,
skip the row when there are none or their count differs from the header
count, build the row dict, attach the country, and rename the first
name-like column to `University` — skipping the row when no header matches
any name alias. -/
def processRow (headers : List String) (wIdx : Option Nat) (country : String)
    (row : HtmlRow) : Option Dict :=
  let tds := row.filter (fun c => c.kind == CellKind.td)
  if tds.isEmpty || tds.length != headers.length then none
  else
    let d := dinsert (buildRowDict headers wIdx tds) "Country" country
    match findNameHeader headers with
    | none => none
    | some h => some (dinsert (dpop d h) "University" ((dget? d h).getD ""))

/-- Extraction from a single `wikitable`: skip the table when it has no
`tbody`, otherwise process every `tbody` row in order. -/
def extractTable (t : HtmlTable) (country : String) : List Dict :=
  match t.tbody with
  | none => []
  | some rows =>
    rows.filterMap (processRow (tableHeaders t) (websiteIdx (tableHeaders t)) country)

/-- `extract_university_tables_from_url`: a failed fetch/parse yields the
empty list (`page = none`); otherwise every `wikitable` on the page is
processed in document order. -/
def extract_university_tables_from_url (page : Option (List HtmlTable))
    (country : String) : List Dict :=
  match page with
  | none => []
  | some tables => (tables.map (fun t => extractTable t country)).flatten

example : extract_university_tables_from_url
    (some [⟨[[⟨CellKind.th, "Institutions", none⟩, ⟨CellKind.th, "Website", none⟩]],
           some [[⟨CellKind.td, "Chulalongkorn University", none⟩,
                  ⟨CellKind.td, "chula.ac.th", some "https://chula.ac.th"⟩]]⟩])
    "Thailand" =
    [[("Website", "https://chula.ac.th"), ("Country", "Thailand"),
      ("University", "Chulalongkorn University")]] := by decide

/-! ### Classification gates (`check_with_openai`, `check_with_openai_TTO`)

The chat endpoint's behaviour is the function's argument: `Except.ok a` is a
successful response with message content `a`, `Except.error ()` is any raised
request exception (caught by the source's `try/except`). -/

/-- `check_with_openai`: agriculture-department gate.  The answer is stripped,
lowercased and tested for the substring `"yes"`; any exception yields
`False`. -/
def check_with_openai (resp : Except Unit String) : Bool :=
  match resp with
  | Except.error _ => false
  | Except.ok a => containsSub (toLowerS (trimS a)) "yes"

/-- `check_with_openai_TTO`: TTO/KTO-office gate, same answer handling as the
agriculture gate. -/
def check_with_openai_TTO (resp : Except Unit String) : Bool :=
  match resp with
  | Except.error _ => false
  | Except.ok a => containsSub (toLowerS (trimS a)) "yes"

/-! ### Search-based enrichment (`get_tto_page_url`, `get_incubation_record`,
`find_university_linkedin`)

`google_search_for_url` performs network I/O and HTML scraping; it is the
abstract boundary, modelled as a function `search : String → Option String`
from the query text to the first extracted result URL (`none` for a fetch
failure or no result).  All three enrichment functions call it with no
separate site-filter argument, so keying the oracle by the full query string
is exact. -/

/-- The scheme-defaulting step: a truthy website not starting with `"http"`
gets `"http://"` prepended. -/
def normWebsite (w : Option String) : Option String :=
  if optTruthy w && !(startsWithS (w.getD "") "http") then some ("http://" ++ w.getD "") else w

/-- The `site:` filter built from the stored website, `none` when the website
is `None` or empty (Python falsy). -/
def siteFilterOf (w : Option String) : Option String :=
  let w' := normWebsite w
  if optTruthy w' then some ("site:" ++ domainOf (w'.getD "")) else none

/-- URL relevance filter of `get_tto_page_url`. -/
def relevantTTO (u : String) : Bool :=
  containsSub (toLowerS u) "tto" || containsSub (toLowerS u) "technology-transfer" ||
    containsSub (toLowerS u) "kto"

/-- URL relevance filter of `get_incubation_record`. -/
def relevantInc (u : String) : Bool :=
  containsSub (toLowerS u) "incubation" || containsSub (toLowerS u) "startup" ||
    containsSub (toLowerS u) "entrepreneurship"

/-- The five TTO queries, in source order; the site filter is interpolated
via an f-string, so a `None` filter renders as the text `"None"`. -/
def ttoQueries (name : String) (website : Option String) : List String :=
  let sf := pyStr (siteFilterOf website)
  [name ++ " TTO office " ++ sf,
   name ++ " technology transfer office " ++ sf,
   name ++ " intellectual property commercialization " ++ sf,
   name ++ " KTO office " ++ sf,
   name ++ " research commercialization " ++ sf]

/-- The four domain-scoped incubation queries, in source order. -/
def incubationQueries (name : String) (website : Option String) : List String :=
  let sf := pyStr (siteFilterOf website)
  [name ++ " incubation program " ++ sf,
   name ++ " startup accelerator " ++ sf,
   name ++ " entrepreneurship center " ++ sf,
   name ++ " student startups " ++ sf]

/-- The broader, non-domain-scoped fallback query of `get_incubation_record`. -/
def broadQuery (name : String) : String :=
  name ++ " innovation ecosystem OR startup success OR incubation achievements"

/-- The shared `for query in queries` loop shape: call the search for each
query in order; return the first truthy URL passing the relevance filter,
together with the list of queries actually issued. -/
def runSearchLoop (search : String → Option String) (relevant : String → Bool) :
    List String → Option String × List String
  | [] => (none, [])
  | q :: rest =>
    let u := (search q).getD ""
    if u != "" && relevant u then (some u, [q])
    else ((runSearchLoop search relevant rest).1, q :: (runSearchLoop search relevant rest).2)

/-- `get_tto_page_url`: run the five TTO queries, return the first accepted
URL or the sentinel `"Not Found"`, paired with the queries issued. -/
def get_tto_page_url (search : String → Option String) (name : String)
    (website : Option String) : String × List String :=
  let r := runSearchLoop search relevantTTO (ttoQueries name website)
  (r.1.getD "Not Found", r.2)

/-- `get_incubation_record`: run the four domain-scoped queries; failing an
acceptance, issue the broad query; otherwise the sentinel.  The second
component lists the queries issued. -/
def get_incubation_record (search : String → Option String) (name : String)
    (website : Option String) : String × List String :=
  let r := runSearchLoop search relevantInc (incubationQueries name website)
  match r.1 with
  | some u => ("Found relevant page: " ++ u, r.2)
  | none =>
    let bu := search (broadQuery name)
    if optTruthy bu then ("Broader information found: " ++ bu.getD "", r.2 ++ [broadQuery name])
    else ("Not Found/No specific record", r.2 ++ [broadQuery name])

/-- UTF-8 byte sequence of a code point, as natural numbers. -/
def utf8Bytes (n : Nat) : List Nat :=
  if n < 0x80 then [n]
  else if n < 0x800 then [0xC0 + n / 0x40, 0x80 + n % 0x40]
  else if n < 0x10000 then
    [0xE0 + n / 0x1000, 0x80 + (n / 0x40) % 0x40, 0x80 + n % 0x40]
  else
    [0xF0 + n / 0x40000, 0x80 + (n / 0x1000) % 0x40, 0x80 + (n / 0x40) % 0x40, 0x80 + n % 0x40]

/-- An uppercase hexadecimal digit. -/
def hexU (n : Nat) : Char :=
  if n < 10 then Char.ofNat (48 + n) else Char.ofNat (55 + n)

/-- Model of `requests.utils.quote` on one character: alphanumerics, `_.-~`
and the default-safe `/` pass through, everything else is percent-encoded
from its UTF-8 bytes. -/
def quoteChar (c : Char) : List Char :=
  if c.isAlphanum || c == '_' || c == '.' || c == '-' || c == '~' || c == '/' then [c]
  else ((utf8Bytes c.toNat).map (fun b => ['%', hexU (b / 16), hexU (b % 16)])).flatten

/-- Model of `requests.utils.quote`. -/
def urlQuote (s : String) : String :=
  String.mk (s.toList.map quoteChar).flatten

/-- `find_university_linkedin`: one school-scoped query; a truthy result
containing `linkedin.com/school/` is used verbatim, otherwise a generic
profile-search URL is constructed.  The second component lists the queries
issued. -/
def find_university_linkedin (search : String → Option String) (name : String) :
    String × List String :=
  let q := name ++ " site:linkedin.com/school"
  let u := search q
  if optTruthy u && containsSub (u.getD "") "linkedin.com/school/" then (u.getD "", [q])
  else ("https://www.linkedin.com/search/results/all/?keywords=" ++ urlQuote name ++
        "&origin=GLOBAL_SEARCH_HEADER&entityType=school", [q])

/-! ### The processing loop shared by `__main__` and the Streamlit app -/

/-- The external world of one run: the chat endpoint's raw answers to the two
prompts (per university name) and the search primitive. -/
structure Env where
  agriAnswer : String → Except Unit String
  ttoAnswer : String → Except Unit String
  search : String → Option String

/-- One observable outbound call: the agriculture classification, the TTO
classification, or a search query. -/
inductive ExtCall where
  | agri (name : String)
  | ttoCheck (name : String)
  | search (q : String)
deriving DecidableEq, Repr

/-- The `ASEAN_REGIONS` lookup table from the source. -/
def ASEAN_REGIONS : Dict :=
  [("Brunei", "Southeast Asia"), ("Myanmar", "Southeast Asia"),
   ("Cambodia", "Southeast Asia"), ("Timor-Leste", "Southeast Asia"),
   ("Indonesia", "Southeast Asia"), ("Laos", "Southeast Asia"),
   ("Malaysia", "Southeast Asia"), ("Philippines", "Southeast Asia"),
   ("Singapore", "Southeast Asia"), ("Thailand", "Southeast Asia"),
   ("Vietnam", "Southeast Asia")]

/-- The enrichment block executed once the agriculture gate has passed: TTO
gate, conditional TTO URL search, incubation record, LinkedIn search, and the
output row in the source's exact key order.  The second component is the
trace of outbound calls it makes. -/
def enrichRow (env : Env) (name country website : String) : Dict × List ExtCall :=
  let hasTTO := check_with_openai_TTO (env.ttoAnswer name)
  let tto := if hasTTO then get_tto_page_url env.search name (some website) else ("N/A", [])
  let inc := get_incubation_record env.search name (some website)
  let li := find_university_linkedin env.search name
  let region := (dget? ASEAN_REGIONS country).getD "Unknown"
  ([("University", name), ("Country", country), ("Region", region), ("Website", website),
    ("Has TTO?", if hasTTO then "Yes" else "No"), ("TTO Page URL", tto.1),
    ("Incubation Record", inc.1), ("Apollo/LinkedIn Search URL", li.1)],
   ExtCall.ttoCheck name :: (tto.2 ++ inc.2 ++ li.2).map ExtCall.search)

/-- One iteration of the detailed-processing loop body: skip records with a
missing or empty (falsy) `University` name, run the agriculture gate, and on
success produce the enriched output row.  The second component is the trace
of outbound calls. -/
def processUniversity (env : Env) (uni : Dict) : Option Dict × List ExtCall :=
  match dget? uni "University" with
  | none => (none, [])
  | some name =>
    if name == "" then (none, [])
    else
      let website := (dget? uni "Website").getD "N/A"
      let country := (dget? uni "Country").getD "N/A"
      if check_with_openai (env.agriAnswer name) then
        (some (enrichRow env name country website).1,
         ExtCall.agri name :: (enrichRow env name country website).2)
      else (none, [ExtCall.agri name])

/-- The detailed-processing loop: stop when `processed_count` reaches the
cap (checked at the top of each iteration), increment the counter only when a
record is appended to the final data. -/
def processAll (env : Env) (cap : Nat) : List Dict → Nat → List Dict
  | [], _ => []
  | uni :: rest, count =>
    if cap ≤ count then []
    else
      match (processUniversity env uni).1 with
      | some row => row :: processAll env cap rest (count + 1)
      | none => processAll env cap rest count

/-- The `__main__` pipeline of `main.py`: extraction capped at 100 records
per country, detailed processing capped at 20. -/
def mainPipeline (env : Env) (extracted : List Dict) : List Dict :=
  processAll env 20 (extracted.take 100) 0

/-- The Streamlit pipeline: extraction and detailed processing both capped by
the user-supplied limit. -/
def streamlitPipeline (env : Env) (limit : Nat) (extracted : List Dict) : List Dict :=
  processAll env limit (extracted.take limit) 0

/-! ### Dict lemmas -/

theorem dget_dinsert_self (d : Dict) (k v : String) : dget? (dinsert d k v) k = some v := by
  induction d with
  | nil => simp [dinsert, dget?]
  | cons p rest ih =>
    by_cases h : p.1 = k
    · simp [dinsert, dget?, h]
    · simp [dinsert, dget?, h, ih]

theorem dget_dinsert_ne (d : Dict) (k k' v : String) (h : k ≠ k') :
    dget? (dinsert d k' v) k = dget? d k := by
  have hkk : k' ≠ k := fun e => h e.symm
  induction d with
  | nil => simp [dinsert, dget?, hkk]
  | cons p rest ih =>
    by_cases hp : p.1 = k'
    · have hpk : p.1 ≠ k := by rw [hp]; exact hkk
      simp [dinsert, dget?, hp, hpk, hkk]
    · by_cases hk : p.1 = k
      · simp [dinsert, dget?, hp, hk, h]
      · simp [dinsert, dget?, hp, hk, ih]

/-! ### Claim C7 -/

/-- Claim C7: the two classification gates return `true` exactly when the
trimmed endpoint answer contains the substring `"yes"` case-insensitively,
and return `false` for every other answer and for every request failure. -/
theorem C7_classification_gates (resp : Except Unit String) :
    (check_with_openai resp = true ↔
      ∃ a, resp = Except.ok a ∧ containsSub (toLowerS (trimS a)) "yes" = true) ∧
    (check_with_openai_TTO resp = true ↔
      ∃ a, resp = Except.ok a ∧ containsSub (toLowerS (trimS a)) "yes" = true) ∧
    (∀ e : Unit, check_with_openai (Except.error e) = false ∧
      check_with_openai_TTO (Except.error e) = false) := by
  refine ⟨?_, ?_, fun e => ⟨rfl, rfl⟩⟩ <;>
    cases resp <;> simp [check_with_openai, check_with_openai_TTO]

/-! ### Claim C10 -/

theorem hasPrefixL_append_self (a b : List Char) : hasPrefixL (a ++ b) a = true := by
  induction a with
  | nil => simp [hasPrefixL]
  | cons x xs ih => simp [hasPrefixL, ih]

theorem hasPrefixL_append_right (p l l' : List Char) (h : hasPrefixL l p = true) :
    hasPrefixL (l ++ l') p = true := by
  induction p generalizing l with
  | nil => simp [hasPrefixL]
  | cons b bs ih =>
    cases l with
    | nil => simp [hasPrefixL] at h
    | cons a as =>
      simp only [hasPrefixL, Bool.and_eq_true] at h ⊢
      exact ⟨h.1, ih as h.2⟩

theorem toListS_append (s t : String) : (s ++ t).toList = s.toList ++ t.toList := rfl

theorem endsWithS_append_left (s t u : String) (h : endsWithS t u = true) :
    endsWithS (s ++ t) u = true := by
  simp only [endsWithS, toListS_append, List.reverse_append]
  exact hasPrefixL_append_right _ _ _ h

/-- Claim C10: in `get_tto_page_url` and `get_incubation_record`, an empty or
absent website gives site filter `None`, and since the filter is interpolated
by an f-string every domain-scoped query then ends with the literal text
`"None"`. -/
theorem C10_empty_website_none_filter (name : String) :
    siteFilterOf none = none ∧ siteFilterOf (some "") = none ∧
    (∀ q ∈ ttoQueries name none, endsWithS q "None" = true) ∧
    (∀ q ∈ ttoQueries name (some ""), endsWithS q "None" = true) ∧
    (∀ q ∈ incubationQueries name none, endsWithS q "None" = true) ∧
    (∀ q ∈ incubationQueries name (some ""), endsWithS q "None" = true) := by
  have hf1 : siteFilterOf none = none := rfl
  have hf2 : siteFilterOf (some "") = none := rfl
  refine ⟨hf1, hf2, ?_, ?_, ?_, ?_⟩
  · intro q hq
    simp only [ttoQueries, hf1, pyStr, List.mem_cons, List.not_mem_nil, or_false] at hq
    rcases hq with rfl | rfl | rfl | rfl | rfl <;>
      exact endsWithS_append_left _ _ _ (by decide)
  · intro q hq
    simp only [ttoQueries, hf2, pyStr, List.mem_cons, List.not_mem_nil, or_false] at hq
    rcases hq with rfl | rfl | rfl | rfl | rfl <;>
      exact endsWithS_append_left _ _ _ (by decide)
  · intro q hq
    simp only [incubationQueries, hf1, pyStr, List.mem_cons, List.not_mem_nil, or_false] at hq
    rcases hq with rfl | rfl | rfl | rfl <;>
      exact endsWithS_append_left _ _ _ (by decide)
  · intro q hq
    simp only [incubationQueries, hf2, pyStr, List.mem_cons, List.not_mem_nil, or_false] at hq
    rcases hq with rfl | rfl | rfl | rfl <;>
      exact endsWithS_append_left _ _ _ (by decide)

/-- Witness for C10 at a concrete name and the first TTO query. -/
theorem C10_empty_website_none_filter_witness : endsWithS "U TTO office None" "None" = true :=
  (C10_empty_website_none_filter "U").2.2.1 "U TTO office None" (by decide)

/-! ### Claim C8 -/

theorem processRow_length_ne (headers : List String) (wIdx : Option Nat) (country : String)
    (row : HtmlRow)
    (h : (row.filter (fun c => c.kind == CellKind.td)).length ≠ headers.length) :
    processRow headers wIdx country row = none := by
  have hb : ((row.filter (fun c => c.kind == CellKind.td)).length != headers.length) = true := by
    simpa [bne_iff_ne] using h
  simp [processRow, hb]

/-- Claim C8: a data row contributes a record only if its cell count equals
the header-list length; a row whose td count differs from the header count is
silently discarded and never appears in the extractor's output. -/
theorem C8_row_cell_count_gate (t : HtmlTable) (country : String) (rows : List HtmlRow)
    (h : t.tbody = some rows) :
    extractTable t country =
      rows.filterMap (processRow (tableHeaders t) (websiteIdx (tableHeaders t)) country) ∧
    ∀ row ∈ rows,
      (row.filter (fun c => c.kind == CellKind.td)).length ≠ (tableHeaders t).length →
      processRow (tableHeaders t) (websiteIdx (tableHeaders t)) country row = none := by
  exact ⟨by simp [extractTable, h], fun row _ hlen => processRow_length_ne _ _ _ _ hlen⟩

/-- A two-header table whose single body row has only one td. -/
def c8Table : HtmlTable :=
  ⟨[[⟨CellKind.th, "Name", none⟩, ⟨CellKind.th, "Website", none⟩]],
   some [[⟨CellKind.td, "A", none⟩]]⟩

/-- Witness for C8: the mismatched row of `c8Table` is discarded. -/
theorem C8_row_cell_count_gate_witness :
    processRow (tableHeaders c8Table) (websiteIdx (tableHeaders c8Table)) "Thailand"
      [⟨CellKind.td, "A", none⟩] = none :=
  (C8_row_cell_count_gate c8Table "Thailand" [[⟨CellKind.td, "A", none⟩]] rfl).2
    [⟨CellKind.td, "A", none⟩] (by decide) (by decide)

/-! ### Claim C1 -/

theorem processRow_some_name (headers : List String) (wIdx : Option Nat) (country : String)
    (row : HtmlRow) (r : Dict) (h : processRow headers wIdx country row = some r) :
    (dget? r "University").isSome := by
  simp only [processRow] at h
  split at h
  · exact absurd h (by simp)
  · split at h
    · exact absurd h (by simp)
    · obtain rfl := Option.some.inj h
      simp [dget_dinsert_self]

/-- Claim C1 (amended): every record emitted by
`extract_university_tables_from_url` carries the canonical `University`
field; its value may however be the empty string. -/
theorem C1_name_field_present (page : Option (List HtmlTable)) (country : String)
    (r : Dict) (hr : r ∈ extract_university_tables_from_url page country) :
    (dget? r "University").isSome := by
  cases page with
  | none => simp [extract_university_tables_from_url] at hr
  | some tables =>
    simp only [extract_university_tables_from_url, List.mem_flatten, List.mem_map] at hr
    obtain ⟨l, ⟨t, ht, rfl⟩, hrl⟩ := hr
    rcases htb : t.tbody with _ | rows
    · simp [extractTable, htb] at hrl
    · simp only [extractTable, htb, List.mem_filterMap] at hrl
      obtain ⟨row, _, hrow⟩ := hrl
      exact processRow_some_name _ _ _ _ _ hrow

/-- One-column table whose single data cell is empty. -/
def c1Table : HtmlTable :=
  ⟨[[⟨CellKind.th, "Name", none⟩]], some [[⟨CellKind.td, "", none⟩]]⟩

/-- Claim C1 counterexample: a row whose name cell text is empty is still
emitted, and its canonical `University` field is the empty string — the
claimed non-emptiness fails on the code. -/
theorem C1_counterexample :
    extract_university_tables_from_url (some [c1Table]) "Thailand" =
      [[("Country", "Thailand"), ("University", "")]] ∧
    dget? [("Country", "Thailand"), ("University", "")] "University" = some "" :=
  ⟨by decide, by decide⟩

/-- Witness for C1 at a concrete page with a non-empty name cell. -/
theorem C1_name_field_present_witness :
    (dget? [("Country", "Thailand"), ("University", "A")] "University").isSome :=
  C1_name_field_present
    (some [⟨[[⟨CellKind.th, "Name", none⟩]], some [[⟨CellKind.td, "A", none⟩]]⟩])
    "Thailand" _ (by decide)

/-! ### Claim C9 -/

/-- Claim C9 (amended): the header list is built from every `th` anywhere in
the table, body rows included; consequently, whenever some body row contains
a `th` cell, every data row whose td count equals the number of `th` cells
outside the `tbody` is discarded (the full header list is strictly longer). -/
theorem C9_body_th_swells_headers (t : HtmlTable) (country : String) (rows : List HtmlRow)
    (htb : t.tbody = some rows) :
    tableHeaders t = thTexts t.preRows ++ thTexts rows ∧
    ((∃ row ∈ rows, ∃ c ∈ row, c.kind = CellKind.th) →
      ∀ row ∈ rows,
        (row.filter (fun c => c.kind == CellKind.td)).length = (thTexts t.preRows).length →
        processRow (tableHeaders t) (websiteIdx (tableHeaders t)) country row = none) := by
  have hsplit : tableHeaders t = thTexts t.preRows ++ thTexts rows := by
    simp [tableHeaders, htb, thTexts]
  refine ⟨hsplit, ?_⟩
  intro hex row _ hlen
  obtain ⟨row0, hrow0, c0, hc0, hk0⟩ := hex
  have hc : c0.text ∈ thTexts rows := by
    simp only [thTexts, List.mem_flatten, List.mem_map]
    exact ⟨(row0.filter (fun c => c.kind == CellKind.th)).map Cell.text, ⟨row0, hrow0, rfl⟩,
      List.mem_map_of_mem _ (List.mem_filter.mpr ⟨hc0, by simp [hk0]⟩)⟩
  have hpos : 0 < (thTexts rows).length := List.length_pos.mpr (List.ne_nil_of_mem hc)
  apply processRow_length_ne
  rw [hsplit, List.length_append, hlen]
  omega

/-- A table with no header row whose single body row is `th "Name"`,
`td "A"`. -/
def c9Table : HtmlTable :=
  ⟨[], some [[⟨CellKind.th, "Name", none⟩, ⟨CellKind.td, "A", none⟩]]⟩

/-- Claim C9 counterexample: in `c9Table` a body row contains a `th`, yet the
header list (length 1) is not longer than the row's td count (1), and the row
is emitted rather than discarded. -/
theorem C9_counterexample :
    (tableHeaders c9Table).length = 1 ∧
    (([⟨CellKind.th, "Name", none⟩, ⟨CellKind.td, "A", none⟩] : HtmlRow).filter
        (fun c => c.kind == CellKind.td)).length = 1 ∧
    ¬ 1 < (tableHeaders c9Table).length ∧
    extractTable c9Table "Thailand" = [[("Country", "Thailand"), ("University", "A")]] :=
  ⟨by decide, by decide, by decide, by decide⟩

/-- A row-headed table: two real headers, one body row with a `th` row-header
and two matching td cells. -/
def c9wTable : HtmlTable :=
  ⟨[[⟨CellKind.th, "Name", none⟩, ⟨CellKind.th, "Ref", none⟩]],
   some [[⟨CellKind.th, "Row", none⟩, ⟨CellKind.td, "A", none⟩, ⟨CellKind.td, "B", none⟩]]⟩

/-- Witness for C9: the well-formed row-headed row of `c9wTable` is
discarded. -/
theorem C9_body_th_swells_headers_witness :
    processRow (tableHeaders c9wTable) (websiteIdx (tableHeaders c9wTable)) "Thailand"
      [⟨CellKind.th, "Row", none⟩, ⟨CellKind.td, "A", none⟩, ⟨CellKind.td, "B", none⟩] = none :=
  (C9_body_th_swells_headers c9wTable "Thailand"
      ([[⟨CellKind.th, "Row", none⟩, ⟨CellKind.td, "A", none⟩, ⟨CellKind.td, "B", none⟩]] :
        List HtmlRow) rfl).2
    (by decide)
    ([⟨CellKind.th, "Row", none⟩, ⟨CellKind.td, "A", none⟩, ⟨CellKind.td, "B", none⟩] : HtmlRow)
    (by decide) (by decide)


/-! ### Claim C5 -/

/-- One step of the shared search loop: the URL the loop would accept for one
query — the search result when it is truthy and passes the relevance filter,
`none` otherwise. -/
def acceptBy (search : String → Option String) (relevant : String → Bool) (q : String) :
    Option String :=
  let u := (search q).getD ""
  if u != "" && relevant u then some u else none

theorem takeWhile_all {α : Type} (p : α → Bool) (l : List α) (h : ∀ a ∈ l, p a = true) :
    l.takeWhile p = l := by
  induction l with
  | nil => rfl
  | cons a t ih =>
    simp [List.takeWhile_cons, h a (by simp), ih (fun b hb => h b (by simp [hb]))]

theorem findSome?_mem {α β : Type} (f : α → Option β) (l : List α) (b : β)
    (h : l.findSome? f = some b) : ∃ a ∈ l, f a = some b := by
  induction l with
  | nil => simp at h
  | cons a t ih =>
    rw [List.findSome?_cons] at h
    cases hfa : f a with
    | some c =>
      rw [hfa] at h
      simp at h
      exact ⟨a, by simp, by rw [hfa, h]⟩
    | none =>
      rw [hfa] at h
      obtain ⟨x, hx, hfx⟩ := ih h
      exact ⟨x, by simp [hx], hfx⟩

theorem acceptBy_relevant (search : String → Option String) (relevant : String → Bool)
    (q u : String) (h : acceptBy search relevant q = some u) : relevant u = true := by
  simp only [acceptBy] at h
  split at h
  · next hc =>
    obtain rfl := Option.some.inj h
    have hc' : ((search q).getD "" != "") = true ∧ relevant ((search q).getD "") = true := by
      simpa using hc
    exact hc'.2
  · exact absurd h (by simp)

theorem runSearchLoop_eq (search : String → Option String) (relevant : String → Bool)
    (qs : List String) :
    runSearchLoop search relevant qs =
      (qs.findSome? (acceptBy search relevant),
       qs.take ((qs.takeWhile (fun q => (acceptBy search relevant q).isNone)).length + 1)) := by
  induction qs with
  | nil => rfl
  | cons q rest ih =>
    by_cases h : (((search q).getD "") != "" && relevant ((search q).getD "")) = true
    · have ha : acceptBy search relevant q = some ((search q).getD "") := by
        simp [acceptBy, h]
      simp [runSearchLoop, h, List.findSome?_cons, ha, List.takeWhile_cons]
    · have ha : acceptBy search relevant q = none := by
        simp only [acceptBy]
        rw [if_neg (by simpa using h)]
      simp [runSearchLoop, h, List.findSome?_cons, ha, List.takeWhile_cons, ih]

/-- Claim C5: `get_tto_page_url` issues its five search queries in the fixed
source order, accepts the first truthy result URL containing `tto`,
`technology-transfer` or `kto` case-insensitively and stops there, and when
no query yields an accepted link it returns exactly the sentinel
`"Not Found"` after issuing all five queries. -/
theorem C5_tto_url_resolution (search : String → Option String) (name : String)
    (website : Option String) :
    (ttoQueries name website).length = 5 ∧
    get_tto_page_url search name website =
      (((ttoQueries name website).findSome? (acceptBy search relevantTTO)).getD "Not Found",
       (ttoQueries name website).take
         (((ttoQueries name website).takeWhile
             (fun q => (acceptBy search relevantTTO q).isNone)).length + 1)) ∧
    ((∀ q ∈ ttoQueries name website, acceptBy search relevantTTO q = none) →
      get_tto_page_url search name website = ("Not Found", ttoQueries name website)) ∧
    (∀ u, (ttoQueries name website).findSome? (acceptBy search relevantTTO) = some u →
      relevantTTO u = true) := by
  refine ⟨by simp [ttoQueries], ?_, ?_, ?_⟩
  · simp [get_tto_page_url, runSearchLoop_eq]
  · intro hnone
    have hfs : (ttoQueries name website).findSome? (acceptBy search relevantTTO) = none :=
      List.findSome?_eq_none_iff.mpr hnone
    have htw : (ttoQueries name website).takeWhile
        (fun q => (acceptBy search relevantTTO q).isNone) = ttoQueries name website :=
      takeWhile_all _ _ (fun q hq => by simp [hnone q hq])
    rw [get_tto_page_url, runSearchLoop_eq]
    simp only [hfs, htw, Option.getD_none]
    rw [List.take_of_length_le (by omega)]
  · intro u hu
    obtain ⟨q, -, hq⟩ := findSome?_mem _ _ _ hu
    exact acceptBy_relevant _ _ _ _ hq

/-- Witness for C5: a search oracle returning no result yields the sentinel
and all five queries. -/
theorem C5_tto_url_resolution_witness :
    get_tto_page_url (fun _ => none) "U" none = ("Not Found", ttoQueries "U" none) :=
  (C5_tto_url_resolution (fun _ => none) "U" none).2.2.1 (by decide)

/-! ### Claim C6 -/

theorem runSearchLoop_trace_cons (search : String → Option String) (rel : String → Bool)
    (q : String) (rest : List String) :
    ∃ t, (runSearchLoop search rel (q :: rest)).2 = q :: t := by
  by_cases h : (((search q).getD "") != "" && rel ((search q).getD "")) = true
  · exact ⟨[], by simp [runSearchLoop, h]⟩
  · exact ⟨(runSearchLoop search rel rest).2, by simp [runSearchLoop, h]⟩

theorem first_inc_query_issued (search : String → Option String) (name : String)
    (website : Option String) :
    (incubationQueries name website).headD "" ∈ (get_incubation_record search name website).2 := by
  have hcons : incubationQueries name website =
      (incubationQueries name website).headD "" :: (incubationQueries name website).tail := by
    simp [incubationQueries]
  obtain ⟨tr, htr⟩ := runSearchLoop_trace_cons search relevantInc
    ((incubationQueries name website).headD "") (incubationQueries name website).tail
  rw [← hcons] at htr
  rw [get_incubation_record]
  cases hm : (runSearchLoop search relevantInc (incubationQueries name website)).1 with
  | some u => simp [hm, htr]
  | none =>
    by_cases hb : optTruthy (search (broadQuery name)) = true
    · simp [hm, htr, hb]
    · simp [hm, htr, hb]

/-- The fixed all-yes / no-result external world used by concrete witnesses. -/
def envYes : Env :=
  ⟨fun _ => Except.ok "Yes", fun _ => Except.ok "No", fun _ => none⟩

/-- A minimal extracted record with only the canonical name field. -/
def uniU : Dict := [("University", "U")]

/-- Claim C6: `get_incubation_record` tries its four domain-scoped queries in
order, accepting a link only when it contains `incubation`, `startup` or
`entrepreneurship`, wrapping the first acceptance as `"Found relevant page: "`;
failing that, one broader non-domain-scoped query whose any truthy result is
wrapped as `"Broader information found: "`; otherwise it returns the sentinel
`"Not Found/No specific record"`.  Moreover the processing loop invokes it
for every record that passed the agriculture gate, whatever the TTO gate
answered (the environment, hence the TTO answer, is arbitrary here). -/
theorem C6_incubation_resolution (search : String → Option String) (name : String)
    (website : Option String) (env : Env) (uni : Dict) :
    (incubationQueries name website).length = 4 ∧
    (get_incubation_record search name website).1 =
      (match (incubationQueries name website).findSome? (acceptBy search relevantInc) with
       | some u => "Found relevant page: " ++ u
       | none =>
         if optTruthy (search (broadQuery name)) then
           "Broader information found: " ++ (search (broadQuery name)).getD ""
         else "Not Found/No specific record") ∧
    (∀ u, (incubationQueries name website).findSome? (acceptBy search relevantInc) = some u →
      relevantInc u = true) ∧
    broadQuery name =
      name ++ " innovation ecosystem OR startup success OR incubation achievements" ∧
    (∀ name', dget? uni "University" = some name' → name' ≠ "" →
      check_with_openai (env.agriAnswer name') = true →
      ∃ row, (processUniversity env uni).1 = some row ∧
        dget? row "Incubation Record" =
          some (get_incubation_record env.search name'
            (some ((dget? uni "Website").getD "N/A"))).1 ∧
        ExtCall.search ((incubationQueries name'
            (some ((dget? uni "Website").getD "N/A"))).headD "") ∈
          (processUniversity env uni).2) := by
  refine ⟨by simp [incubationQueries], ?_, ?_, rfl, ?_⟩
  · rw [get_incubation_record, runSearchLoop_eq]
    cases hm : (incubationQueries name website).findSome? (acceptBy search relevantInc) with
    | some u => simp [hm]
    | none =>
      by_cases hb : optTruthy (search (broadQuery name)) = true
      · simp [hm, hb]
      · simp [hm, hb]
  · intro u hu
    obtain ⟨q, -, hq⟩ := findSome?_mem _ _ _ hu
    exact acceptBy_relevant _ _ _ _ hq
  · intro name' hn hne hagri
    have hbe : (name' == "") = false := by
      simpa using hne
    refine ⟨(enrichRow env name' ((dget? uni "Country").getD "N/A")
        ((dget? uni "Website").getD "N/A")).1, ?_, ?_, ?_⟩
    · simp [processUniversity, hn, hbe, hagri]
    · simp [enrichRow, dget?]
    · have h1 := first_inc_query_issued env.search name' (some ((dget? uni "Website").getD "N/A"))
      simp only [processUniversity, hn, hbe, Bool.false_eq_true, if_false, hagri, if_true]
      simp only [enrichRow, List.mem_cons, List.mem_map, List.mem_append]
      exact Or.inr (Or.inr ⟨_, Or.inl (Or.inr h1), rfl⟩)

/-- Witness for C6: with the all-yes environment the first incubation query
is issued for the concrete record `uniU`. -/
theorem C6_incubation_resolution_witness :
    ExtCall.search ((incubationQueries "U" (some "N/A")).headD "") ∈
      (processUniversity envYes uniU).2 := by
  obtain ⟨row, -, -, hmem⟩ :=
    (C6_incubation_resolution envYes.search "U" (some "N/A") envYes uniU).2.2.2.2
      "U" (by decide) (by decide) (by decide)
  exact hmem

/-! ### Claim C3 -/

/-- The all-no environment: the agriculture gate answers `"No"`. -/
def envNo : Env :=
  ⟨fun _ => Except.ok "No", fun _ => Except.ok "No", fun _ => none⟩

/-- Claim C3: for a record reaching enrichment (its name present and
non-empty), a false agriculture gate produces no enriched record — the record
contributes nothing to the loop output and no enrichment call (TTO check, TTO
URL search, incubation search, social search) is issued, the trace being the
single agriculture call; a true gate produces exactly one enriched record
with all four enrichment fields populated. -/
theorem C3_agriculture_gate (env : Env) (uni : Dict) (name : String)
    (hn : dget? uni "University" = some name) (hne : name ≠ "") :
    (check_with_openai (env.agriAnswer name) = false →
      (processUniversity env uni).1 = none ∧
      (processUniversity env uni).2 = [ExtCall.agri name] ∧
      ∀ cap rest count, count < cap →
        processAll env cap (uni :: rest) count = processAll env cap rest count) ∧
    (check_with_openai (env.agriAnswer name) = true →
      ∃ row, (processUniversity env uni).1 = some row ∧
        (dget? row "Has TTO?").isSome ∧ (dget? row "TTO Page URL").isSome ∧
        (dget? row "Incubation Record").isSome ∧
        (dget? row "Apollo/LinkedIn Search URL").isSome) := by
  have hbe : (name == "") = false := by simpa using hne
  constructor
  · intro hf
    have h1 : (processUniversity env uni).1 = none := by
      simp [processUniversity, hn, hbe, hf]
    refine ⟨h1, by simp [processUniversity, hn, hbe, hf], ?_⟩
    intro cap rest count hc
    have hlt : ¬ cap ≤ count := Nat.not_le.mpr hc
    simp [processAll, hlt, h1]
  · intro ht
    refine ⟨(enrichRow env name ((dget? uni "Country").getD "N/A")
        ((dget? uni "Website").getD "N/A")).1,
      by simp [processUniversity, hn, hbe, ht], ?_, ?_, ?_, ?_⟩ <;>
      simp [enrichRow, dget?]

/-- Witness for C3: with the all-no environment the concrete record `uniU`
is dropped and only the agriculture call is issued. -/
theorem C3_agriculture_gate_witness :
    (processUniversity envNo uniU).1 = none ∧
    (processUniversity envNo uniU).2 = [ExtCall.agri "U"] := by
  obtain ⟨h1, h2, -⟩ :=
    (C3_agriculture_gate envNo uniU "U" (by decide) (by decide)).1 (by decide)
  exact ⟨h1, h2⟩

/-! ### Claim C4 -/

/-- The output row the loop appends for a record that passes the agriculture
gate. -/
def rowFor (env : Env) (u : Dict) : Dict :=
  (enrichRow env ((dget? u "University").getD "")
    ((dget? u "Country").getD "N/A") ((dget? u "Website").getD "N/A")).1

theorem processUniversity_pass (env : Env) (u : Dict)
    (h1 : (dget? u "University").isSome)
    (h2 : (dget? u "University").getD "" ≠ "")
    (h3 : check_with_openai (env.agriAnswer ((dget? u "University").getD "")) = true) :
    (processUniversity env u).1 = some (rowFor env u) := by
  obtain ⟨name, hn⟩ := Option.isSome_iff_exists.mp h1
  have hgd : (dget? u "University").getD "" = name := by rw [hn]; rfl
  rw [hgd] at h2 h3
  have hbe : (name == "") = false := by simpa using h2
  simp [processUniversity, hn, hbe, h3, rowFor, hgd]

theorem processAll_allPass (env : Env) (cap : Nat) (records : List Dict) :
    ∀ count : Nat,
      (∀ u ∈ records, (dget? u "University").isSome ∧
        (dget? u "University").getD "" ≠ "" ∧
        check_with_openai (env.agriAnswer ((dget? u "University").getD "")) = true) →
      processAll env cap records count = (records.take (cap - count)).map (rowFor env) := by
  induction records with
  | nil => intro count h; simp [processAll]
  | cons u rest ih =>
    intro count h
    by_cases hc : cap ≤ count
    · have h0 : cap - count = 0 := by omega
      simp [processAll, hc, h0]
    · obtain ⟨h1, h2, h3⟩ := h u (by simp)
      have hrow := processUniversity_pass env u h1 h2 h3
      have hstep : cap - count = (cap - (count + 1)) + 1 := by omega
      rw [hstep]
      simp [processAll, hc, hrow, ih (count + 1) (fun v hv => h v (by simp [hv])),
        List.take_succ_cons]

/-- Claim C4: when every extracted record is valid and passes the agriculture
gate, the `__main__` pipeline emits exactly the rows of the first 20 records
in extraction order (its hard-coded cap), and the Streamlit pipeline those of
the first `limit` records (the user-supplied cap). -/
theorem C4_record_limit (env : Env) (records : List Dict) (limit : Nat)
    (hpass : ∀ u ∈ records, (dget? u "University").isSome ∧
      (dget? u "University").getD "" ≠ "" ∧
      check_with_openai (env.agriAnswer ((dget? u "University").getD "")) = true) :
    mainPipeline env records = (records.take 20).map (rowFor env) ∧
    streamlitPipeline env limit records = (records.take limit).map (rowFor env) := by
  constructor
  · rw [mainPipeline,
      processAll_allPass env 20 _ 0 (fun u hu => hpass u (List.take_subset _ _ hu))]
    simp [List.take_take]
  · rw [streamlitPipeline,
      processAll_allPass env limit _ 0 (fun u hu => hpass u (List.take_subset _ _ hu))]
    simp [List.take_take]

/-- Five valid extracted records, as in the spec's limit scenario. -/
def recs5 : List Dict :=
  [[("University", "A")], [("University", "B")], [("University", "C")],
   [("University", "D")], [("University", "E")]]

/-- Witness for C4: five all-passing records with user limit 2 — the main
pipeline keeps all five (under its cap of 20), the Streamlit pipeline exactly
the first two. -/
theorem C4_record_limit_witness :
    mainPipeline envYes recs5 = (recs5.take 20).map (rowFor envYes) ∧
    streamlitPipeline envYes 2 recs5 = (recs5.take 2).map (rowFor envYes) :=
  C4_record_limit envYes recs5 2 (by decide)

/-! ### Claim C2 -/

/-- The row dict as a plain key-value list, one entry per column: what
`buildRowDict` produces when no header text repeats. -/
def rowPairs (headers : List String) (wIdx : Option Nat) (tds : List Cell) : Dict :=
  ((headers.zip tds).enum).map (fun x => (x.2.1, cellValue wIdx x.1 x.2.2))

theorem dinsert_not_mem (d : Dict) (k v : String) (h : ∀ p ∈ d, p.1 ≠ k) :
    dinsert d k v = d ++ [(k, v)] := by
  induction d with
  | nil => rfl
  | cons p rest ih =>
    simp [dinsert, h p (by simp), ih (fun q hq => h q (by simp [hq]))]

theorem foldl_dinsert_append (l : Dict) :
    ∀ acc : Dict, (l.map Prod.fst).Nodup →
      (∀ p ∈ l, ∀ q ∈ acc, q.1 ≠ p.1) →
      l.foldl (fun d p => dinsert d p.1 p.2) acc = acc ++ l := by
  induction l with
  | nil => intro acc _ _; simp
  | cons x rest ih =>
    intro acc hnd hdisj
    rw [List.map_cons, List.nodup_cons] at hnd
    simp only [List.foldl_cons]
    rw [dinsert_not_mem acc x.1 x.2 (fun q hq => hdisj x (by simp) q hq)]
    rw [ih (acc ++ [x]) hnd.2 ?_]
    · simp
    · intro p hp q hq
      rcases List.mem_append.mp hq with hq1 | hq2
      · exact hdisj p (by simp [hp]) q hq1
      · have hqx : q = x := by simpa using hq2
        subst hqx
        intro e
        exact hnd.1 (by rw [e]; exact List.mem_map_of_mem Prod.fst hp)

theorem rowPairs_keys (headers : List String) (wIdx : Option Nat) (tds : List Cell)
    (hlen : tds.length = headers.length) :
    (rowPairs headers wIdx tds).map Prod.fst = headers := by
  have h1 : (rowPairs headers wIdx tds).map Prod.fst =
      ((headers.zip tds).enum.map Prod.snd).map Prod.fst := by
    simp only [rowPairs, List.map_map]
    rfl
  rw [h1]
  have h2 : (headers.zip tds).enum.map Prod.snd = headers.zip tds :=
    List.enumFrom_map_snd 0 _
  rw [h2, List.map_fst_zip _ _ (by omega)]

theorem buildRowDict_eq_rowPairs (headers : List String) (wIdx : Option Nat) (tds : List Cell)
    (hnd : headers.Nodup) (hlen : tds.length = headers.length) :
    buildRowDict headers wIdx tds = rowPairs headers wIdx tds := by
  have h0 : buildRowDict headers wIdx tds =
      (rowPairs headers wIdx tds).foldl (fun d p => dinsert d p.1 p.2) [] := by
    simp only [rowPairs, List.foldl_map]
    rfl
  rw [h0, foldl_dinsert_append _ []
    (by rw [rowPairs_keys _ _ _ hlen]; exact hnd)
    (by intro p _ q hq; simp at hq)]
  simp

theorem dget?_of_getElem? (d : Dict) :
    ∀ (i : Nat) (k v : String), (d.map Prod.fst).Nodup → d[i]? = some (k, v) →
      dget? d k = some v := by
  induction d with
  | nil => intro i k v _ h; simp at h
  | cons p rest ih =>
    intro i k v hnd h
    rw [List.map_cons, List.nodup_cons] at hnd
    cases i with
    | zero =>
      simp only [List.getElem?_cons_zero] at h
      obtain rfl := Option.some.inj h
      simp [dget?]
    | succ j =>
      simp only [List.getElem?_cons_succ] at h
      obtain ⟨hlt, heq⟩ := List.getElem?_eq_some.mp h
      have hm : (k, v) ∈ rest := heq ▸ List.getElem_mem hlt
      have hk : k ∈ rest.map Prod.fst := List.mem_map_of_mem Prod.fst hm
      have hne : p.1 ≠ k := fun e => hnd.1 (by rw [e]; exact hk)
      simp [dget?, hne, ih j k v hnd.2 h]

theorem websiteIdx_some (headers : List String) :
    ∀ j, websiteIdx headers = some j →
      ∃ h, headers[j]? = some h ∧ toLowerS h = "website" := by
  induction headers with
  | nil => intro j h; simp [websiteIdx] at h
  | cons a t ih =>
    intro j h
    simp only [websiteIdx] at h
    by_cases ha : (toLowerS a == "website") = true
    · rw [if_pos ha] at h
      obtain rfl := Option.some.inj h
      exact ⟨a, by simp, by simpa using ha⟩
    · rw [if_neg ha] at h
      cases hw : websiteIdx t with
      | none => rw [hw] at h; simp at h
      | some j' =>
        rw [hw] at h
        simp only [Option.map_some'] at h
        obtain rfl := Option.some.inj h
        obtain ⟨hh, hget, hlow⟩ := ih j' hw
        exact ⟨hh, by simpa using hget, hlow⟩

theorem findNameHeader_some (headers : List String) (h : String)
    (hf : findNameHeader headers = some h) :
    h ∈ headers ∧ ∃ key ∈ possible_name_columns, containsSub (toLowerS h) key = true := by
  obtain ⟨key, hkey, hfind⟩ := findSome?_mem _ _ _ hf
  refine ⟨List.mem_of_find?_eq_some hfind, key, hkey, ?_⟩
  simpa using List.find?_some hfind

theorem nameAlias_facts (h key : String) (hkey : key ∈ possible_name_columns)
    (hc : containsSub (toLowerS h) key = true) :
    toLowerS h ≠ "website" ∧ h ≠ "Country" := by
  have hkeys : key = "name" ∨ key = "names" ∨ key = "name in english" ∨
      key = "names in english" ∨ key = "institution" ∨ key = "institutions" ∨
      key = "university" ∨ key = "universities" := by
    simpa [possible_name_columns] using hkey
  constructor
  · intro e
    rw [e] at hc
    rcases hkeys with rfl | rfl | rfl | rfl | rfl | rfl | rfl | rfl <;>
      exact absurd hc (by decide)
  · intro e
    subst e
    rw [show toLowerS "Country" = "country" from by decide] at hc
    rcases hkeys with rfl | rfl | rfl | rfl | rfl | rfl | rfl | rfl <;>
      exact absurd hc (by decide)

/-- Claim C2 (amended): for duplicate-free header lists, when some header
matches a name alias (the priority scan succeeding with first match `h`),
the emitted record's `University` field equals the cell text of the matching
column; when no header matches any alias, no record is emitted for any
row. -/
theorem C2_name_column_resolution (headers : List String) (cells : List Cell)
    (country : String) (hnd : headers.Nodup) (htd : ∀ c ∈ cells, c.kind = CellKind.td)
    (hlen : cells.length = headers.length) (hne : cells ≠ []) :
    (∀ h, findNameHeader headers = some h →
      ∃ (i : Nat) (c : Cell) (r : Dict), headers[i]? = some h ∧ cells[i]? = some c ∧
        processRow headers (websiteIdx headers) country cells = some r ∧
        dget? r "University" = some c.text) ∧
    (findNameHeader headers = none →
      ∀ row : HtmlRow, processRow headers (websiteIdx headers) country row = none) := by
  have hfilter : cells.filter (fun c => c.kind == CellKind.td) = cells :=
    List.filter_eq_self.mpr (fun c hc => by simp [htd c hc])
  constructor
  · intro h hf
    obtain ⟨hmem, key, hkey, hsub⟩ := findNameHeader_some headers h hf
    obtain ⟨hW, hC⟩ := nameAlias_facts h key hkey hsub
    obtain ⟨i, hi⟩ := List.mem_iff_getElem?.mp hmem
    obtain ⟨hilt, -⟩ := List.getElem?_eq_some.mp hi
    have hclt : i < cells.length := by omega
    obtain ⟨c, hc⟩ : ∃ c, cells[i]? = some c :=
      ⟨cells.get ⟨i, hclt⟩, by rw [List.getElem?_eq_getElem hclt]; rfl⟩
    have hd1 : dget? (buildRowDict headers (websiteIdx headers) cells) h =
        some (cellValue (websiteIdx headers) i c) := by
      rw [buildRowDict_eq_rowPairs _ _ _ hnd hlen]
      apply dget?_of_getElem? _ i
      · rw [rowPairs_keys _ _ _ hlen]; exact hnd
      · simp only [rowPairs, List.getElem?_map, List.getElem?_enum]
        have hz : (headers.zip cells)[i]? = some (h, c) :=
          List.getElem?_zip_eq_some.mpr ⟨hi, hc⟩
        rw [hz]
        rfl
    have hd2 : dget? (dinsert (buildRowDict headers (websiteIdx headers) cells)
        "Country" country) h = some (cellValue (websiteIdx headers) i c) := by
      rw [dget_dinsert_ne _ h "Country" country hC, hd1]
    have hcv : cellValue (websiteIdx headers) i c = c.text := by
      rw [cellValue]
      rcases hw : websiteIdx headers with _ | j
      · simp
      · obtain ⟨hh, hgetj, hlow⟩ := websiteIdx_some headers j hw
        by_cases hij : j = i
        · subst hij
          have hhh : hh = h := Option.some.inj (hgetj.symm.trans hi)
          exact absurd (hhh ▸ hlow) hW
        · rw [if_neg (by simpa using hij)]
    refine ⟨i, c,
      dinsert (dpop (dinsert (buildRowDict headers (websiteIdx headers) cells)
        "Country" country) h) "University"
        ((dget? (dinsert (buildRowDict headers (websiteIdx headers) cells)
          "Country" country) h).getD ""),
      hi, hc, ?_, ?_⟩
    · simp only [processRow, hfilter]
      rw [if_neg (by simp [List.isEmpty_iff, hne, hlen]), hf]
    · rw [dget_dinsert_self, hd2]
      simp [hcv]
  · intro hf row
    simp [processRow, hf]

/-- Claim C2 counterexample: with the duplicate header list
`["Name", "Name"]` the dict build overwrites the first column's value, so the
emitted name is the second cell text `"B"`, not the first-matching column's
cell text `"A"`. -/
theorem C2_counterexample :
    processRow ["Name", "Name"] (websiteIdx ["Name", "Name"]) "Thailand"
      ([⟨CellKind.td, "A", none⟩, ⟨CellKind.td, "B", none⟩] : HtmlRow) =
      some [("Country", "Thailand"), ("University", "B")] ∧
    findNameHeader ["Name", "Name"] = some "Name" ∧
    (["Name", "Name"] : List String)[0]? = some "Name" ∧
    (([⟨CellKind.td, "A", none⟩, ⟨CellKind.td, "B", none⟩] : HtmlRow)[0]?).map Cell.text =
      some "A" ∧
    dget? [("Country", "Thailand"), ("University", "B")] "University" = some "B" ∧
    ("B" : String) ≠ "A" :=
  ⟨by decide, by decide, by decide, by decide, by decide, by decide⟩

/-- Witness for C2 at a concrete aliasless header list: no record for the
row. -/
theorem C2_name_column_resolution_witness :
    processRow ["Foo", "Bar"] (websiteIdx ["Foo", "Bar"]) "Thailand"
      ([⟨CellKind.td, "x", none⟩, ⟨CellKind.td, "y", none⟩] : HtmlRow) = none :=
  (C2_name_column_resolution ["Foo", "Bar"]
      ([⟨CellKind.td, "x", none⟩, ⟨CellKind.td, "y", none⟩] : HtmlRow) "Thailand"
      (by decide) (by decide) (by decide) (by decide)).2 (by decide)
    ([⟨CellKind.td, "x", none⟩, ⟨CellKind.td, "y", none⟩] : HtmlRow)
